import Mathlib

/-!
# Verification of the VPAT PDF-triage and extraction pipeline

A shallow embedding of `src/analyze_vpat.py`: the PDF text extractor
(`extract_vpat_text`), the per-page vision fallback (`analyse_scanned_pdf`),
and the triage orchestrator (`analyze_pdf`).

Modelling choices:
* Strings are `List Char` (`Str`); Python's `str.strip()` is `strip`
  (drop ASCII whitespace on both ends), `str.split("\n")` is
  `List.splitOn '\n'`, and `"\n".join(...)` is `List.intercalate ['\n']`.
* A `Page` carries the text PyMuPDF would extract for it (`text`) and the
  raw output the vision model returns for its rendered image (`visionRaw`,
  an `Except` since the API call may raise).  A `Doc` is its page list.
* The chat analyzer (`analyse_text_with_chat`'s API call) is an abstract
  function `Chat := Str → Except Err Str`; both analyzers `strip` the raw
  model output before returning it, as the source does.
* Opening the PDF may raise `DocumentOpenError`; the orchestrator receives
  the open outcome as `Except Err Doc`.  The source opens the same file in
  `extract_vpat_text` and again in `analyse_scanned_pdf`; a file that opened
  once opens again, so a single outcome models both opens.
* Side effects (rasterization at 200 DPI, model calls) are recorded in an
  event trace `List Event` so claims about *which* calls happen, *how many
  times* and *in which order* are statable.
-/

deriving instance DecidableEq for Except

namespace VPAT

abbrev Str := List Char

/-- Python ASCII whitespace, the characters `str.strip()` removes:
space, tab, newline, carriage return, vertical tab, form feed. -/
def isWs (c : Char) : Bool :=
  c = ' ' || c = '\t' || c = '\n' || c = '\r' || c = '\x0b' || c = '\x0c'

/-- Python `s.strip()`: drop whitespace from both ends. -/
def strip (s : Str) : Str :=
  List.rdropWhile isWs (List.dropWhile isWs s)

/-- Errors the pipeline can surface.  `documentOpenError` models PyMuPDF
failing to open the input; `analyzerError` models any exception raised by
an OpenAI API call (network, quota, malformed response), tagged by an
arbitrary code. -/
inductive Err where
  | documentOpenError : Err
  | analyzerError : Nat → Err
deriving DecidableEq, Repr

/-- One page of the PDF: the selectable text PyMuPDF extracts
(`page.get_text("text")`) and the raw output of the GPT-4o vision call on
the page's 200-DPI rendering (or the exception that call raises). -/
structure Page where
  text : Str
  visionRaw : Except Err Str
deriving Repr, DecidableEq

/-- A successfully opened PDF document: its pages in order. -/
structure Doc where
  pages : List Page
deriving Repr, DecidableEq

/-- The abstract text analyzer: the GPT-4o chat call inside
`analyse_text_with_chat`, mapping the extracted text to the model's raw
reply or an exception. -/
abbrev Chat := Str → Except Err Str

/-- Observable side effects of one `analyze_pdf` run. -/
inductive Event where
  | chatCall : Str → Event
  | rasterize : Nat → Nat → Event
  | visionCall : Nat → Event
deriving DecidableEq, Repr

/-- Whether an event is an invocation of the text (chat) analyzer. -/
def Event.isChatCall : Event → Bool
  | .chatCall _ => true
  | _ => false

/-- `extract_vpat_text`: `text = ""` then `text += page.get_text("text") + "\n"`
for each page in order. -/
def extract_vpat_text (doc : Doc) : Str :=
  doc.pages.foldl (fun text p => text ++ p.text ++ ['\n']) []

/-- `analyse_text_with_chat`: the chat API call followed by
`.strip()` on the reply.  An exception propagates. -/
def analyse_text_with_chat (chat : Chat) (text : Str) : Except Err Str :=
  (chat text).map strip

/-- `analyse_page_image`: the vision API call on the page's rendered image
followed by `.strip()` on the reply.  An exception propagates. -/
def analyse_page_image (p : Page) : Except Err Str :=
  p.visionRaw.map strip

/-- The list comprehension
`[line.strip() for line in result.split("\n") if line.strip()]`
from `analyse_scanned_pdf`. -/
def formatLines (result : Str) : List Str :=
  (result.splitOn '\n').filterMap fun line =>
    if strip line ≠ [] then some (strip line) else none

/-- The loop body of `analyse_scanned_pdf`, over the remaining pages:
rasterize page `i` at 200 DPI, call the vision analyzer on it (an exception
aborts the whole run), and when the (stripped) result is non-empty extend
`lines` with its stripped non-blank lines. -/
def scannedGo : List Page → Nat → List Event × Except Err (List Str)
  | [], _ => ([], .ok [])
  | p :: rest, i =>
    match analyse_page_image p with
    | .error e => ([.rasterize i 200, .visionCall i], .error e)
    | .ok result =>
      let newLines := if result ≠ [] then formatLines result else []
      let (evs, r) := scannedGo rest (i + 1)
      (.rasterize i 200 :: .visionCall i :: evs, r.map (fun ls => newLines ++ ls))

/-- `analyse_scanned_pdf`: run the per-page loop (pages are 1-indexed in the
image filenames) and `"\n".join` the collected lines. -/
def analyse_scanned_pdf (doc : Doc) : List Event × Except Err Str :=
  let (evs, r) := scannedGo doc.pages 1
  (evs, r.map (List.intercalate ['\n']))

/-- `analyze_pdf`: extract text; `if text and len(text.strip()) > 50`
try the chat analysis, falling back to the vision path when it raises;
otherwise go straight to the vision path.  A failure to open the document
propagates from `extract_vpat_text` before any analyzer runs. -/
def analyze_pdf (chat : Chat) (openResult : Except Err Doc) :
    List Event × Except Err Str :=
  match openResult with
  | .error e => ([], .error e)
  | .ok doc =>
    let text := extract_vpat_text doc
    if text ≠ [] ∧ 50 < (strip text).length then
      match analyse_text_with_chat chat text with
      | .ok s => ([.chatCall text], .ok s)
      | .error _ =>
        let (evs, r) := analyse_scanned_pdf doc
        (.chatCall text :: evs, r)
    else
      analyse_scanned_pdf doc

/-- The lines one page contributes to the vision-path output. -/
def pageLines (p : Page) : List Str :=
  match analyse_page_image p with
  | .error _ => []
  | .ok result => if result ≠ [] then formatLines result else []

/-- The canonical event trace of a complete vision fallback over `n` pages
starting at page ordinal `i`: rasterize at 200 DPI then one vision call,
per page, in ascending page order. -/
def canonTrace : Nat → Nat → List Event
  | 0, _ => []
  | n + 1, i => .rasterize i 200 :: .visionCall i :: canonTrace n (i + 1)

/-! ## Properties of `strip` -/

lemma strip_nil : strip [] = [] := rfl

lemma ne_nil_of_strip_length {t : Str} (h : 50 < (strip t).length) : t ≠ [] := by
  intro he
  subst he
  simp [strip_nil] at h

lemma strip_sublist (s : Str) : List.Sublist (strip s) s := by
  have h1 : List.Sublist (strip s) (List.dropWhile isWs s) := by
    obtain ⟨t, ht⟩ := List.rdropWhile_prefix isWs (List.dropWhile isWs s)
    exact ht ▸ List.sublist_append_left _ _
  exact h1.trans (List.dropWhile_sublist isWs)

lemma mem_strip {c : Char} {s : Str} (h : c ∈ strip s) : c ∈ s :=
  (strip_sublist s).subset h

lemma dropWhile_strip (s : Str) : List.dropWhile isWs (strip s) = strip s := by
  unfold strip
  obtain ⟨u, hu⟩ := List.rdropWhile_prefix isWs (List.dropWhile isWs s)
  rcases ha : List.rdropWhile isWs (List.dropWhile isWs s) with _ | ⟨c, a⟩
  · rfl
  · have hc : isWs c = false := by
      have hw : List.dropWhile isWs s ≠ [] := by
        rw [ha] at hu
        intro hnil
        rw [hnil] at hu
        simp at hu
      have hhead := List.head_dropWhile_not isWs s hw
      have : (List.dropWhile isWs s).head hw = c := by
        rw [ha] at hu
        have : List.dropWhile isWs s = c :: (a ++ u) := by rw [← hu]; simp
        simp [this]
      rw [this] at hhead
      simpa using hhead
    simp [List.dropWhile_cons, hc]

lemma strip_idem (s : Str) : strip (strip s) = strip s := by
  conv_lhs => rw [strip, dropWhile_strip]
  rw [strip, List.rdropWhile_idempotent]

/-! ## Properties of splitting and joining on newlines -/

lemma not_mem_splitOnP (s : Str) : ∀ l ∈ s.splitOnP (· == '\n'), '\n' ∉ l := by
  induction s with
  | nil =>
    intro l hl
    rw [List.splitOnP_nil] at hl
    simp only [List.mem_singleton] at hl
    subst hl
    simp
  | cons c s ih =>
    intro l hl
    rw [List.splitOnP_cons] at hl
    by_cases hc : (c == '\n') = true
    · rw [if_pos hc] at hl
      rcases List.mem_cons.mp hl with h | h
      · subst h; simp
      · exact ih l h
    · rw [if_neg hc] at hl
      rcases hsp : s.splitOnP (· == '\n') with _ | ⟨hd, tl⟩
      · exact absurd hsp (List.splitOnP_ne_nil _ s)
      · rw [hsp, List.modifyHead_cons] at hl
        rcases List.mem_cons.mp hl with h | h
        · subst h
          intro hmem
          rcases List.mem_cons.mp hmem with h1 | h1
          · exact hc (by simp [h1.symm])
          · exact ih hd (by rw [hsp]; exact List.mem_cons_self _ _) h1
        · exact ih l (by rw [hsp]; exact List.mem_cons_of_mem _ h)

lemma not_mem_splitOn (s : Str) : ∀ l ∈ s.splitOn '\n', '\n' ∉ l :=
  not_mem_splitOnP s

lemma intercalate_singleton (l : Str) : List.intercalate ['\n'] [l] = l := by
  simp [List.intercalate]

lemma intercalate_cons_of_ne_nil {l : Str} {ls : List Str} (h : ls ≠ []) :
    List.intercalate ['\n'] (l :: ls) = l ++ '\n' :: List.intercalate ['\n'] ls := by
  cases ls with
  | nil => exact absurd rfl h
  | cons b tl => simp [List.intercalate, List.intersperse_cons_cons]

lemma intercalate_ne_nil {ls : List Str} (hne : ls ≠ []) (h : ∀ l ∈ ls, l ≠ []) :
    List.intercalate ['\n'] ls ≠ [] := by
  cases ls with
  | nil => exact absurd rfl hne
  | cons l tl =>
    cases tl with
    | nil => rw [intercalate_singleton]; exact h l (List.mem_cons_self _ _)
    | cons b tl' =>
      rw [intercalate_cons_of_ne_nil (List.cons_ne_nil _ _)]
      simp

lemma intercalate_head_ne {ls : List Str} (h : ∀ l ∈ ls, l ≠ [] ∧ '\n' ∉ l) :
    (List.intercalate ['\n'] ls).head? ≠ some '\n' := by
  cases ls with
  | nil => simp [List.intercalate]
  | cons l tl =>
    have hl := h l (List.mem_cons_self _ _)
    intro hc
    cases tl with
    | nil =>
      rw [intercalate_singleton] at hc
      exact hl.2 (List.mem_of_mem_head? hc)
    | cons b tl' =>
      rw [intercalate_cons_of_ne_nil (List.cons_ne_nil _ _)] at hc
      rcases hl' : l with _ | ⟨c, t⟩
      · exact hl.1 hl'
      · rw [hl'] at hc
        simp only [List.cons_append, List.head?_cons, Option.some_inj] at hc
        exact hl.2 (by rw [hl', hc]; exact List.mem_cons_self _ _)

lemma intercalate_getLast_ne {ls : List Str} (h : ∀ l ∈ ls, l ≠ [] ∧ '\n' ∉ l) :
    (List.intercalate ['\n'] ls).getLast? ≠ some '\n' := by
  induction ls with
  | nil => simp [List.intercalate]
  | cons l tl ih =>
    have hl := h l (List.mem_cons_self _ _)
    cases tl with
    | nil =>
      rw [intercalate_singleton]
      intro hc
      exact hl.2 (List.mem_of_mem_getLast? hc)
    | cons b tl' =>
      have h2 : ∀ l' ∈ b :: tl', l' ≠ [] ∧ '\n' ∉ l' :=
        fun l' hl' => h l' (List.mem_cons_of_mem _ hl')
      rw [intercalate_cons_of_ne_nil (List.cons_ne_nil _ _),
        List.getLast?_append_of_ne_nil _ (List.cons_ne_nil _ _)]
      have hrest : List.intercalate ['\n'] (b :: tl') ≠ [] :=
        intercalate_ne_nil (List.cons_ne_nil _ _) (fun x hx => (h2 x hx).1)
      rcases hr : List.intercalate ['\n'] (b :: tl') with _ | ⟨d, r⟩
      · exact absurd hr hrest
      · rw [List.getLast?_cons_cons, ← hr]
        exact ih h2

/-! ## Properties of `formatLines` -/

lemma filterMap_strip_of_ne {L : List Str} (h : ∀ l ∈ L, strip l ≠ []) :
    (L.filterMap fun line => if strip line ≠ [] then some (strip line) else none)
      = L.map strip := by
  induction L with
  | nil => rfl
  | cons x xs ih =>
    have hx : strip x ≠ [] := h x (List.mem_cons_self _ _)
    simp only [List.filterMap_cons, if_pos hx, List.map_cons]
    rw [ih (fun l hl => h l (List.mem_cons_of_mem _ hl))]

lemma formatLines_intercalate {L : List Str} (h : ∀ l ∈ L, strip l ≠ [] ∧ '\n' ∉ l) :
    formatLines (List.intercalate ['\n'] L) = L.map strip := by
  cases L with
  | nil => decide
  | cons a L' =>
    unfold formatLines
    rw [List.splitOn_intercalate _ '\n' (fun l hl => (h l hl).2) (List.cons_ne_nil _ _)]
    exact filterMap_strip_of_ne (fun l hl => (h l hl).1)

lemma mem_formatLines {r l : Str} (h : l ∈ formatLines r) :
    l ≠ [] ∧ strip l = l ∧ '\n' ∉ l := by
  unfold formatLines at h
  rcases List.mem_filterMap.mp h with ⟨line, hline, hif⟩
  by_cases hs : strip line = []
  · rw [if_neg (by simp [hs])] at hif
    exact absurd hif (by simp)
  · rw [if_pos hs] at hif
    have hl : l = strip line := (Option.some_inj.mp hif).symm
    subst hl
    refine ⟨hs, strip_idem line, fun hmem => ?_⟩
    exact not_mem_splitOn r line hline (mem_strip hmem)

/-! ## Properties of the vision-fallback loop -/

lemma scannedGo_no_chat (ps : List Page) (i : Nat) :
    ∀ ev ∈ (scannedGo ps i).1, ev.isChatCall = false := by
  induction ps generalizing i with
  | nil => intro ev hev; simp [scannedGo] at hev
  | cons p rest ih =>
    intro ev hev
    rcases hA : analyse_page_image p with e | result
    · simp [scannedGo, hA] at hev
      rcases hev with h | h <;> subst h <;> rfl
    · rcases hGo : scannedGo rest (i + 1) with ⟨evs, r⟩
      simp [scannedGo, hA, hGo] at hev
      rcases hev with h | h | h
      · subst h; rfl
      · subst h; rfl
      · exact ih (i + 1) ev (by rw [hGo]; exact h)

lemma scannedGo_all_ok (ps : List Page) (i : Nat)
    (h : ∀ p ∈ ps, (analyse_page_image p).isOk = true) :
    scannedGo ps i = (canonTrace ps.length i, .ok ((ps.map pageLines).flatten)) := by
  induction ps generalizing i with
  | nil => simp [scannedGo, canonTrace]
  | cons p rest ih =>
    rcases hA : analyse_page_image p with e | result
    · have hp := h p (List.mem_cons_self _ _)
      rw [hA] at hp
      simp [Except.isOk, Except.toBool] at hp
    · have hrest := ih (i + 1) (fun q hq => h q (List.mem_cons_of_mem _ hq))
      simp [scannedGo, hA, hrest, canonTrace, pageLines, List.map_cons,
        List.flatten_cons, Except.map]

lemma scannedGo_ok_inv {ps : List Page} {i : Nat} {ls : List Str}
    (h : (scannedGo ps i).2 = .ok ls) :
    (∀ p ∈ ps, (analyse_page_image p).isOk = true)
      ∧ ls = (ps.map pageLines).flatten := by
  induction ps generalizing i ls with
  | nil =>
    simp [scannedGo] at h
    subst h
    simp
  | cons p rest ih =>
    rcases hA : analyse_page_image p with e | result
    · simp [scannedGo, hA] at h
    · rcases hGo : scannedGo rest (i + 1) with ⟨evs, e' | ls'⟩
      · simp [scannedGo, hA, hGo, Except.map] at h
      · simp [scannedGo, hA, hGo, Except.map] at h
        obtain ⟨hall, hflat⟩ := @ih (i + 1) ls' (by rw [hGo])
        constructor
        · intro q hq
          rcases List.mem_cons.mp hq with rfl | hq'
          · rw [hA]; rfl
          · exact hall q hq'
        · rw [← h, hflat]
          simp [pageLines, hA]

lemma scannedGo_err {ps : List Page} (i : Nat)
    (h : ∃ p ∈ ps, (analyse_page_image p).isOk = false) :
    ((scannedGo ps i).2).isOk = false := by
  induction ps generalizing i with
  | nil => rcases h with ⟨p, hp, -⟩; simp at hp
  | cons p rest ih =>
    rcases hA : analyse_page_image p with e | result
    · simp [scannedGo, hA, Except.isOk, Except.toBool]
    · rcases h with ⟨q, hq, hqbad⟩
      rcases List.mem_cons.mp hq with rfl | hq'
      · rw [hA] at hqbad
        simp [Except.isOk, Except.toBool] at hqbad
      · rcases hGo : scannedGo rest (i + 1) with ⟨evs, r⟩
        have hr := ih (i + 1) ⟨q, hq', hqbad⟩
        rw [hGo] at hr
        rcases r with e' | ls'
        · simp [scannedGo, hA, hGo, Except.map, Except.isOk, Except.toBool]
        · simp [Except.isOk, Except.toBool] at hr

lemma scannedGo_lines {ps : List Page} {i : Nat} {ls : List Str}
    (h : (scannedGo ps i).2 = .ok ls) :
    ∀ l ∈ ls, l ≠ [] ∧ strip l = l ∧ '\n' ∉ l := by
  intro l hl
  obtain ⟨-, rfl⟩ := scannedGo_ok_inv h
  rcases List.mem_flatten.mp hl with ⟨L, hL, hlL⟩
  rcases List.mem_map.mp hL with ⟨p, hp, rfl⟩
  rcases hA : analyse_page_image p with e | result
  · simp only [pageLines, hA] at hlL
    simp at hlL
  · simp only [pageLines, hA] at hlL
    by_cases hres : result = []
    · rw [if_neg (by simp [hres])] at hlL
      simp at hlL
    · rw [if_pos hres] at hlL
      exact mem_formatLines hlL

lemma analyse_page_image_strip {p : Page} {r : Str} (h : analyse_page_image p = .ok r) :
    strip r = r := by
  unfold analyse_page_image at h
  rcases hv : p.visionRaw with e | raw
  · rw [hv] at h; simp [Except.map] at h
  · rw [hv] at h
    simp [Except.map] at h
    rw [← h]
    exact strip_idem raw

lemma analyse_scanned_pdf_eq (doc : Doc) :
    analyse_scanned_pdf doc
      = ((scannedGo doc.pages 1).1,
         ((scannedGo doc.pages 1).2).map (List.intercalate ['\n'])) := by
  unfold analyse_scanned_pdf
  rcases h : scannedGo doc.pages 1 with ⟨evs, r⟩
  rfl

/-! ## Properties of the extractor and the orchestrator -/

lemma extract_vpat_text_eq (doc : Doc) :
    extract_vpat_text doc = (doc.pages.map (fun p => p.text ++ ['\n'])).flatten := by
  have h : ∀ (ps : List Page) (acc : Str),
      ps.foldl (fun text p => text ++ p.text ++ ['\n']) acc
        = acc ++ (ps.map (fun p => p.text ++ ['\n'])).flatten := by
    intro ps
    induction ps with
    | nil => intro acc; simp
    | cons p rest ih =>
      intro acc
      rw [List.foldl_cons, ih, List.map_cons, List.flatten_cons, List.append_assoc]
      simp [List.append_assoc]
  rw [extract_vpat_text, h doc.pages []]
  simp

lemma extract_vpat_text_eq_nil_iff (doc : Doc) :
    extract_vpat_text doc = [] ↔ doc.pages = [] := by
  rw [extract_vpat_text_eq]
  rcases doc.pages with _ | ⟨p, rest⟩
  · simp
  · simp

lemma analyse_scanned_no_chat (doc : Doc) :
    ∀ ev ∈ (analyse_scanned_pdf doc).1, ev.isChatCall = false := by
  rw [analyse_scanned_pdf_eq]
  exact scannedGo_no_chat doc.pages 1

lemma analyze_pdf_chat_ok {doc : Doc} {chat : Chat} {s : Str}
    (hlen : 50 < (strip (extract_vpat_text doc)).length)
    (hchat : analyse_text_with_chat chat (extract_vpat_text doc) = .ok s) :
    analyze_pdf chat (.ok doc) = ([.chatCall (extract_vpat_text doc)], .ok s) := by
  simp only [analyze_pdf]
  rw [if_pos ⟨ne_nil_of_strip_length hlen, hlen⟩, hchat]

lemma analyze_pdf_chat_err {doc : Doc} {chat : Chat} {e : Err}
    (hlen : 50 < (strip (extract_vpat_text doc)).length)
    (hchat : analyse_text_with_chat chat (extract_vpat_text doc) = .error e) :
    analyze_pdf chat (.ok doc)
      = (.chatCall (extract_vpat_text doc) :: (analyse_scanned_pdf doc).1,
         (analyse_scanned_pdf doc).2) := by
  simp only [analyze_pdf]
  rw [if_pos ⟨ne_nil_of_strip_length hlen, hlen⟩, hchat]

lemma analyze_pdf_short {doc : Doc} {chat : Chat}
    (hlen : (strip (extract_vpat_text doc)).length ≤ 50) :
    analyze_pdf chat (.ok doc) = analyse_scanned_pdf doc := by
  simp only [analyze_pdf]
  rw [if_neg]
  rintro ⟨-, h2⟩
  omega

/-! ## Concrete fixtures used by witnesses and counterexamples -/

/-- A one-page document whose extracted text is well over the 50-character
threshold, with a well-formed vision reply for its page. -/
def docLong : Doc :=
  ⟨[⟨"This VPAT report covers all WCAG 2.1 success criteria in detail.".data,
     .ok " 1.1.1 Non-text Content - Supports - alt text present ".data⟩]⟩

/-- A two-page document with almost no extracted text (a scanned PDF):
page 1 yields two criterion lines amid blanks, page 2 yields nothing. -/
def docScan : Doc :=
  ⟨[⟨"hi".data, .ok " x \n\n y ".data⟩, ⟨[], .ok []⟩]⟩

/-- A two-page scanned document whose second page's vision call raises. -/
def docBad : Doc :=
  ⟨[⟨[], .ok "ok line".data⟩, ⟨[], .error (.analyzerError 3)⟩]⟩

/-- A document that opens successfully but has zero pages. -/
def docEmpty : Doc := ⟨[]⟩

/-- A one-page document whose only page extracts the text `"a"`. -/
def docOnePage : Doc := ⟨[⟨"a".data, .ok []⟩]⟩

/-- A chat analyzer that answers with a fixed two-line reply. -/
def chatOk : Chat :=
  fun _ => .ok "  1.1.1 Non-text Content - Supports - ok \nsecond line ".data

/-- A chat analyzer whose call always raises. -/
def chatFail : Chat := fun _ => .error (.analyzerError 7)

/-- A chat analyzer whose reply contains an interior blank line. -/
def chatBlank : Chat := fun _ => .ok "a\n\nb".data

/-! ## The claims -/

/-- C1: for every document whose extracted text has trimmed length over 50,
`analyze_pdf` attempts the text analyzer exactly once, and before any vision
call (the chat call is the first recorded event); for trimmed length at most
50 the text analyzer is never invoked and the vision path runs directly. -/
theorem c1_threshold_triage (doc : Doc) (chat : Chat) :
    (50 < (strip (extract_vpat_text doc)).length →
      (analyze_pdf chat (.ok doc)).1.head? = some (.chatCall (extract_vpat_text doc))
        ∧ ((analyze_pdf chat (.ok doc)).1.filter Event.isChatCall).length = 1)
    ∧ ((strip (extract_vpat_text doc)).length ≤ 50 →
      analyze_pdf chat (.ok doc) = analyse_scanned_pdf doc
        ∧ ∀ ev ∈ (analyze_pdf chat (.ok doc)).1, ev.isChatCall = false) := by
  constructor
  · intro hlen
    rcases hchat : analyse_text_with_chat chat (extract_vpat_text doc) with e | s
    · rw [analyze_pdf_chat_err hlen hchat]
      refine ⟨rfl, ?_⟩
      have htail : ((analyse_scanned_pdf doc).1.filter Event.isChatCall) = [] := by
        rw [List.filter_eq_nil_iff]
        intro ev hev
        simp [analyse_scanned_no_chat doc ev hev]
      simp [List.filter_cons, Event.isChatCall, htail]
    · rw [analyze_pdf_chat_ok hlen hchat]
      exact ⟨rfl, rfl⟩
  · intro hlen
    rw [analyze_pdf_short hlen]
    exact ⟨rfl, analyse_scanned_no_chat doc⟩

/-- Witness for C1 at concrete inputs: a text-bearing document (chat first
and only chat call) and a scanned one (straight to vision, no chat call). -/
theorem c1_threshold_triage_witness :
    (50 < (strip (extract_vpat_text docLong)).length
      ∧ ((analyze_pdf chatOk (.ok docLong)).1.head?
            = some (.chatCall (extract_vpat_text docLong))
          ∧ ((analyze_pdf chatOk (.ok docLong)).1.filter Event.isChatCall).length = 1))
    ∧ ((strip (extract_vpat_text docScan)).length ≤ 50
      ∧ analyze_pdf chatFail (.ok docScan) = analyse_scanned_pdf docScan) :=
  ⟨⟨by decide, (c1_threshold_triage docLong chatOk).1 (by decide)⟩,
   ⟨by decide, ((c1_threshold_triage docScan chatFail).2 (by decide)).1⟩⟩

/-- C2: if the chat call raises, `analyze_pdf` swallows the error and runs
the vision fallback unconditionally (its trace and result are exactly the
fallback's, after the one chat attempt); when every page's vision call
succeeds, the fallback rasterizes every page at 200 DPI and calls the image
analyzer once per page in ascending page order. -/
theorem c2_chat_failure_falls_back (doc : Doc) (chat : Chat) (e : Err)
    (hlen : 50 < (strip (extract_vpat_text doc)).length)
    (hchat : chat (extract_vpat_text doc) = .error e) :
    analyze_pdf chat (.ok doc)
      = (.chatCall (extract_vpat_text doc) :: (analyse_scanned_pdf doc).1,
         (analyse_scanned_pdf doc).2)
    ∧ ((∀ p ∈ doc.pages, (analyse_page_image p).isOk = true) →
        (analyse_scanned_pdf doc).1 = canonTrace doc.pages.length 1) := by
  have hchat' : analyse_text_with_chat chat (extract_vpat_text doc) = .error e := by
    simp [analyse_text_with_chat, hchat, Except.map]
  refine ⟨analyze_pdf_chat_err hlen hchat', fun hok => ?_⟩
  rw [analyse_scanned_pdf_eq, scannedGo_all_ok doc.pages 1 hok]

/-- Witness for C2: a failing chat analyzer on a text-bearing one-page
document with a healthy vision analyzer. -/
theorem c2_chat_failure_falls_back_witness :
    (50 < (strip (extract_vpat_text docLong)).length
      ∧ chatFail (extract_vpat_text docLong) = .error (.analyzerError 7))
    ∧ analyze_pdf chatFail (.ok docLong)
        = (.chatCall (extract_vpat_text docLong) :: (analyse_scanned_pdf docLong).1,
           (analyse_scanned_pdf docLong).2)
    ∧ (analyse_scanned_pdf docLong).1 = canonTrace docLong.pages.length 1 :=
  ⟨⟨by decide, rfl⟩,
   (c2_chat_failure_falls_back docLong chatFail (.analyzerError 7) (by decide) rfl).1,
   (c2_chat_failure_falls_back docLong chatFail (.analyzerError 7) (by decide) rfl).2
     (by decide)⟩

/-- C7: a `DocumentOpenError` is fatal: `analyze_pdf` propagates it, records
no events (so neither analyzer is ever invoked) and attempts no fallback. -/
theorem c7_open_error_fatal (chat : Chat) :
    analyze_pdf chat (.error .documentOpenError)
      = ([], .error .documentOpenError) := rfl

/-- C9: a document that opens with zero pages yields the empty extracted
text, the threshold check fails, the vision loop runs zero iterations, and
`analyze_pdf` returns the empty string with no analyzer invoked. -/
theorem c9_zero_pages (chat : Chat) (doc : Doc) (h : doc.pages = []) :
    extract_vpat_text doc = [] ∧ analyze_pdf chat (.ok doc) = ([], .ok []) := by
  obtain ⟨pages⟩ := doc
  simp only at h
  subst h
  exact ⟨rfl, rfl⟩

/-- Witness for C9: the concrete zero-page document. -/
theorem c9_zero_pages_witness :
    extract_vpat_text docEmpty = []
      ∧ analyze_pdf chatOk (.ok docEmpty) = ([], .ok []) :=
  c9_zero_pages chatOk docEmpty rfl

/-- C3 counterexample: on the chat path the pipeline returns the model's
raw output with only its outer whitespace stripped, so an interior blank
line survives into the final string. -/
theorem c3_counterexample :
    (analyze_pdf chatBlank (.ok docLong)).2 = .ok "a\n\nb".data
    ∧ [] ∈ ("a\n\nb".data.splitOn '\n') := by decide

/-- C3 (amended): on the vision path the final string contains no blank or
whitespace-only line (unless it is the empty string); on the chat path the
final string is the raw chat output with only leading and trailing
whitespace stripped, which may contain interior blank lines. -/
theorem c3_no_blank_lines_amended (doc : Doc) (chat : Chat) :
    (∀ s, (analyse_scanned_pdf doc).2 = .ok s →
        s = [] ∨ ∀ l ∈ s.splitOn '\n', strip l ≠ [])
    ∧ (∀ raw, 50 < (strip (extract_vpat_text doc)).length →
        chat (extract_vpat_text doc) = .ok raw →
        (analyze_pdf chat (.ok doc)).2 = .ok (strip raw)) := by
  constructor
  · intro s hs
    rw [analyse_scanned_pdf_eq] at hs
    rcases hGo : (scannedGo doc.pages 1).2 with e | ls
    · rw [hGo] at hs; simp [Except.map] at hs
    · rw [hGo] at hs
      simp [Except.map] at hs
      have hlines := scannedGo_lines hGo
      subst hs
      rcases ls with _ | ⟨a, ls'⟩
      · left; rfl
      · right
        rw [List.splitOn_intercalate _ '\n'
          (fun l hl => (hlines l hl).2.2) (List.cons_ne_nil _ _)]
        intro l hl
        rw [(hlines l hl).2.1]
        exact (hlines l hl).1
  · intro raw hlen hraw
    have hchat : analyse_text_with_chat chat (extract_vpat_text doc) = .ok (strip raw) := by
      simp [analyse_text_with_chat, hraw, Except.map]
    rw [analyze_pdf_chat_ok hlen hchat]

/-- Witness for C3 (amended): the concrete scanned document, and the chat
path on the text-bearing document. -/
theorem c3_no_blank_lines_amended_witness :
    ((analyse_scanned_pdf docScan).2 = .ok "x\ny".data
      ∧ ("x\ny".data = [] ∨ ∀ l ∈ "x\ny".data.splitOn '\n', strip l ≠ []))
    ∧ (50 < (strip (extract_vpat_text docLong)).length
      ∧ (analyze_pdf chatBlank (.ok docLong)).2 = .ok (strip "a\n\nb".data)) :=
  ⟨⟨by decide, (c3_no_blank_lines_amended docScan chatBlank).1 "x\ny".data (by decide)⟩,
   ⟨by decide,
    (c3_no_blank_lines_amended docLong chatBlank).2 "a\n\nb".data (by decide) rfl⟩⟩

/-- C4: when every page's vision call succeeds, the fallback rasterizes
every page at 200 DPI and invokes the image analyzer exactly once per page
in ascending page order (the trace is the canonical per-page trace), and
the result is the page-ordered concatenation of each page's non-blank
stripped lines, each page's own line order preserved. -/
theorem c4_vision_per_page (doc : Doc)
    (hok : ∀ p ∈ doc.pages, (analyse_page_image p).isOk = true) :
    (analyse_scanned_pdf doc).1 = canonTrace doc.pages.length 1
    ∧ (analyse_scanned_pdf doc).2
        = .ok (List.intercalate ['\n'] ((doc.pages.map pageLines).flatten)) := by
  rw [analyse_scanned_pdf_eq, scannedGo_all_ok doc.pages 1 hok]
  exact ⟨rfl, rfl⟩

/-- Witness for C4: the concrete two-page scanned document. -/
theorem c4_vision_per_page_witness :
    (∀ p ∈ docScan.pages, (analyse_page_image p).isOk = true)
    ∧ (analyse_scanned_pdf docScan).1 = canonTrace docScan.pages.length 1
    ∧ (analyse_scanned_pdf docScan).2
        = .ok (List.intercalate ['\n'] ((docScan.pages.map pageLines).flatten)) :=
  ⟨by decide, (c4_vision_per_page docScan (by decide)).1,
   (c4_vision_per_page docScan (by decide)).2⟩

/-- The extractor the spec's words describe for C5: pages joined with a
single newline as separator (one newline per page boundary). -/
def extractTextSpec (doc : Doc) : Str :=
  List.intercalate ['\n'] (doc.pages.map Page.text)

/-- C5 counterexample: the code appends a newline after every page, so on a
one-page document it returns the page text followed by a newline, not the
newline-separated join the claim describes. -/
theorem c5_counterexample :
    extract_vpat_text docOnePage = "a\n".data
    ∧ extractTextSpec docOnePage = "a".data
    ∧ extract_vpat_text docOnePage ≠ extractTextSpec docOnePage := by decide

/-- C5 (amended): `extract_vpat_text` returns the concatenation of all
pages' text in page order with a newline appended after every page (a
terminator, including after the last page), and it is empty exactly when
the document has zero pages. -/
theorem c5_extract_newline_terminated (doc : Doc) :
    extract_vpat_text doc = (doc.pages.map (fun p => p.text ++ ['\n'])).flatten
    ∧ (extract_vpat_text doc = [] ↔ doc.pages = []) :=
  ⟨extract_vpat_text_eq doc, extract_vpat_text_eq_nil_iff doc⟩

/-- C6 counterexample: the formatter strips each line, so a non-blank line
with leading whitespace is not preserved verbatim by the round trip. -/
theorem c6_counterexample :
    strip " a".data ≠ []
    ∧ formatLines (List.intercalate ['\n'] [" a".data]) = ["a".data]
    ∧ ["a".data] ≠ [" a".data] := by decide

/-- C6 (amended): formatting the newline-join of non-blank lines L1..Ln
yields exactly n lines, the i-th being strip(Li); when every Li is already
stripped the round trip is the identity and content is preserved verbatim. -/
theorem c6_format_roundtrip (L : List Str)
    (h : ∀ l ∈ L, strip l ≠ [] ∧ '\n' ∉ l) :
    formatLines (List.intercalate ['\n'] L) = L.map strip
    ∧ (formatLines (List.intercalate ['\n'] L)).length = L.length
    ∧ ((∀ l ∈ L, strip l = l) → formatLines (List.intercalate ['\n'] L) = L) := by
  have h1 := formatLines_intercalate h
  refine ⟨h1, by rw [h1, List.length_map], fun hfix => ?_⟩
  rw [h1]
  calc L.map strip = L.map id := List.map_congr_left hfix
    _ = L := List.map_id L

/-- Witness for C6 at two concrete lines, one already stripped, one not. -/
theorem c6_format_roundtrip_witness :
    (∀ l ∈ ["1.1.1 Non-text Content - Supports - alt".data, " x".data],
      strip l ≠ [] ∧ '\n' ∉ l)
    ∧ formatLines (List.intercalate ['\n']
        ["1.1.1 Non-text Content - Supports - alt".data, " x".data])
      = ["1.1.1 Non-text Content - Supports - alt".data, "x".data] := by
  refine ⟨by decide, ?_⟩
  rw [(c6_format_roundtrip
    ["1.1.1 Non-text Content - Supports - alt".data, " x".data] (by decide)).1]
  decide

/-- C8: the vision path is all-or-nothing: a successful result implies every
page's vision call succeeded and the result is the full page-ordered line
sequence; if the image analyzer raises on any page, the whole call fails. -/
theorem c8_all_or_nothing (doc : Doc) :
    (∀ s, (analyse_scanned_pdf doc).2 = .ok s →
        (∀ p ∈ doc.pages, (analyse_page_image p).isOk = true)
        ∧ s = List.intercalate ['\n'] ((doc.pages.map pageLines).flatten))
    ∧ ((∃ p ∈ doc.pages, (analyse_page_image p).isOk = false) →
        ((analyse_scanned_pdf doc).2).isOk = false) := by
  constructor
  · intro s hs
    rw [analyse_scanned_pdf_eq] at hs
    rcases hGo : (scannedGo doc.pages 1).2 with e | ls
    · rw [hGo] at hs; simp [Except.map] at hs
    · rw [hGo] at hs
      simp [Except.map] at hs
      obtain ⟨hall, hflat⟩ := scannedGo_ok_inv hGo
      exact ⟨hall, by rw [← hs, hflat]⟩
  · intro hex
    rw [analyse_scanned_pdf_eq]
    have hb := scannedGo_err 1 hex
    rcases hGo : (scannedGo doc.pages 1).2 with e | ls
    · simp [Except.map, Except.isOk, Except.toBool]
    · rw [hGo] at hb
      simp [Except.isOk, Except.toBool] at hb

/-- Witness for C8: the fully-successful scanned document on the ok side
and the document whose second page's vision call raises on the error side. -/
theorem c8_all_or_nothing_witness :
    ((∀ p ∈ docScan.pages, (analyse_page_image p).isOk = true)
      ∧ "x\ny".data = List.intercalate ['\n'] ((docScan.pages.map pageLines).flatten))
    ∧ ((analyse_scanned_pdf docBad).2).isOk = false :=
  ⟨(c8_all_or_nothing docScan).1 "x\ny".data (by decide),
   (c8_all_or_nothing docBad).2 ⟨⟨[], .error (.analyzerError 3)⟩, by decide, by decide⟩⟩

/-- C10: a successful vision-path result has every line stripped of leading
and trailing whitespace, begins and ends with no newline, and a page whose
analyzer output is empty after stripping contributes no lines. -/
theorem c10_vision_output_normalized (doc : Doc) (s : Str)
    (h : (analyse_scanned_pdf doc).2 = .ok s) :
    (∀ l ∈ s.splitOn '\n', strip l = l)
    ∧ s.head? ≠ some '\n'
    ∧ s.getLast? ≠ some '\n'
    ∧ (∀ p ∈ doc.pages, ∀ r, analyse_page_image p = .ok r → strip r = [] →
        pageLines p = []) := by
  rw [analyse_scanned_pdf_eq] at h
  rcases hGo : (scannedGo doc.pages 1).2 with e | ls
  · rw [hGo] at h; simp [Except.map] at h
  · rw [hGo] at h
    simp [Except.map] at h
    have hlines := scannedGo_lines hGo
    subst h
    refine ⟨?_, ?_, ?_, ?_⟩
    · rcases ls with _ | ⟨a, ls'⟩
      · intro l hl
        have hnil : l = [] := by simpa [List.intercalate] using hl
        subst hnil
        rfl
      · rw [List.splitOn_intercalate _ '\n'
          (fun l hl => (hlines l hl).2.2) (List.cons_ne_nil _ _)]
        intro l hl
        exact (hlines l hl).2.1
    · exact intercalate_head_ne (fun l hl => ⟨(hlines l hl).1, (hlines l hl).2.2⟩)
    · exact intercalate_getLast_ne (fun l hl => ⟨(hlines l hl).1, (hlines l hl).2.2⟩)
    · intro p hp r hr hstrip
      have hfix := analyse_page_image_strip hr
      rw [hfix] at hstrip
      subst hstrip
      simp [pageLines, hr]

/-- Witness for C10: the concrete two-page scanned document. -/
theorem c10_vision_output_normalized_witness :
    (analyse_scanned_pdf docScan).2 = .ok "x\ny".data
    ∧ (∀ l ∈ "x\ny".data.splitOn '\n', strip l = l)
    ∧ "x\ny".data.head? ≠ some '\n'
    ∧ "x\ny".data.getLast? ≠ some '\n' :=
  ⟨by decide,
   (c10_vision_output_normalized docScan "x\ny".data (by decide)).1,
   (c10_vision_output_normalized docScan "x\ny".data (by decide)).2.1,
   (c10_vision_output_normalized docScan "x\ny".data (by decide)).2.2.1⟩

end VPAT
